import Mathlib

set_option linter.unusedSectionVars false

/-!
Verification development for `backend/cache_service.py`.

The module under study is a TTL/LRU caching layer: a thread-safe `LRUCache`
(bounded associative store with hit/miss/eviction counters) and a
`CacheService` facade owning four category caches with canonical key
derivation via `json.dumps(params, sort_keys=True, default=str)` hashed with
a truncated MD5 digest.

Embedding choices:
* The `OrderedDict` is modelled as an association list whose head is the
  least-recently-used entry and whose tail end is the most-recently-used one
  (Python's `OrderedDict` iteration order, with `move_to_end` appending and
  `popitem(last=False)` removing the head).
* `time.time()` timestamps and TTL durations are modelled over an arbitrary
  linearly ordered commutative ring `T` (instantiated at `Int` in concrete
  witnesses); every comparison in the source is a plain order comparison, so
  nothing depends on floating-point representation.
* The MD5 digest truncated to 16 hex characters is an opaque function
  parameter `md5hex16 : String → String`; every statement about keys is
  proved for an arbitrary digest function, hence holds for MD5.
* `threading.Lock` is dropped: each operation is a pure state transformer,
  which models the sequential (single-thread-at-a-time) behaviour that the
  lock enforces.
-/

/-! ## Python-value universe and `json.dumps(·, sort_keys=True, default=str)`

`_generate_cache_key` serializes the parameter bag with
`json.dumps(params, sort_keys=True, default=str)`.  `PyVal` is the universe
of values that can appear in a parameter bag: JSON-serializable scalars,
lists and dicts, plus `pobj r`, an arbitrary non-JSON-serializable Python
object whose `str()` representation is `r` (which is what `default=str`
feeds to the encoder in place of the object). -/

mutual
inductive PyVal where
  | pstr (s : String)
  | pint (n : Int)
  | pnone
  | pobj (strRepr : String)
  | plist (xs : PyValList)
  | pdict (es : PyEntryList)
inductive PyValList where
  | nil
  | cons (x : PyVal) (xs : PyValList)
inductive PyEntryList where
  | nil
  | cons (k : String) (v : PyVal) (es : PyEntryList)
end

def PyEntryList.ofList : List (String × PyVal) → PyEntryList
  | [] => .nil
  | (k, v) :: es => .cons k v (PyEntryList.ofList es)

def PyValList.ofList : List PyVal → PyValList
  | [] => .nil
  | x :: xs => .cons x (PyValList.ofList xs)

/-- Lexicographic (code-point) comparison of character lists; this is the
order in which Python compares `str` keys when `sort_keys=True` sorts dict
items.  Written as a structurally recursive boolean so that the kernel can
evaluate it. -/
def clLeb : List Char → List Char → Bool
  | [], _ => true
  | _ :: _, [] => false
  | c :: cs, d :: ds => if c < d then true else if d < c then false else clLeb cs ds

/-- Hex digit, lowercase, as produced by Python's `\uXXXX` escapes. -/
def hexDigit (n : Nat) : Char :=
  if n < 10 then Char.ofNat (48 + n) else Char.ofNat (87 + n)

def hex4 (n : Nat) : String :=
  String.mk [hexDigit (n / 4096 % 16), hexDigit (n / 256 % 16),
             hexDigit (n / 16 % 16), hexDigit (n % 16)]

/-- Escaping of a single character in a JSON string literal, following
`json.dumps` with its default `ensure_ascii=True` (two-character escapes for
the usual control characters, `\uXXXX` for other non-printable or non-ASCII
characters, surrogate pairs above the BMP). -/
def jsonEscapeChar (c : Char) : String :=
  if c = '"' then "\\\""
  else if c = '\\' then "\\\\"
  else if c = '\n' then "\\n"
  else if c = '\t' then "\\t"
  else if c = '\r' then "\\r"
  else if c = '\x08' then "\\b"
  else if c = '\x0c' then "\\f"
  else if 32 ≤ c.toNat ∧ c.toNat ≤ 126 then String.singleton c
  else if c.toNat < 65536 then "\\u" ++ hex4 c.toNat
  else
    "\\u" ++ hex4 (55296 + (c.toNat - 65536) / 1024) ++
    "\\u" ++ hex4 (56320 + (c.toNat - 65536) % 1024)

/-- JSON string literal for `s`, as emitted by `json.dumps`. -/
def jsonStr (s : String) : String :=
  "\"" ++ String.join (s.data.map jsonEscapeChar) ++ "\""

/-- Order on already-serialized dict entries `(raw key, serialized value)`:
compare the raw keys.  `sort_keys=True` sorts the items of a dict by key
before serializing them. -/
def keyLE (a b : String × String) : Prop := clLeb a.1.data b.1.data = true

instance : DecidableRel keyLE := fun a b =>
  inferInstanceAs (Decidable (clLeb a.1.data b.1.data = true))

/-! Embedding of `json.dumps(v, sort_keys=True, default=str)`:

* scalars, lists and dicts are serialized with the default separators
  `", "` and `": "`;
* dict items are sorted by key (`sort_keys=True`);
* a non-serializable object (`pobj r`) is replaced by `str(object)` = `r`
  by the `default=str` hook and then serialized as a JSON string — it is
  NOT an error. -/
mutual
def dumps : PyVal → String
  | .pstr s => jsonStr s
  | .pint n => toString n
  | .pnone => "null"
  | .pobj r => jsonStr r
  | .plist xs => "[" ++ String.intercalate ", " (dumpsList xs) ++ "]"
  | .pdict es => "\x7b" ++ String.intercalate ", "
      ((List.insertionSort keyLE (dumpsEntries es)).map
        (fun p => jsonStr p.1 ++ ": " ++ p.2)) ++ "\x7d"
def dumpsList : PyValList → List String
  | .nil => []
  | .cons x xs => dumps x :: dumpsList xs
def dumpsEntries : PyEntryList → List (String × String)
  | .nil => []
  | .cons k v es => (k, dumps v) :: dumpsEntries es
end

/-! ## Key derivation (`CacheService._generate_cache_key`) -/

/-- The string `f"{operation}:{sorted_params}"` that is fed to MD5. -/
def cache_key_content (operation : String) (params : List (String × PyVal)) : String :=
  operation ++ ":" ++ dumps (.pdict (.ofList params))

/-- Embedding of `CacheService._generate_cache_key`.  The MD5 digest
truncated to 16 hex characters is abstracted as `md5hex16`. -/
def generate_cache_key (md5hex16 : String → String) (operation : String)
    (params : List (String × PyVal)) : String :=
  operation ++ ":" ++ md5hex16 (cache_key_content operation params)

/-! ## `CacheEntry` and `LRUCache` -/

/-- Embedding of `CacheEntry`: a value, the `time.time()` creation timestamp
and a TTL duration. -/
structure CacheEntry (α T : Type) where
  value : α
  timestamp : T
  ttl_seconds : T
deriving Repr, DecidableEq

variable {α : Type} {T : Type} [LinearOrderedCommRing T]

/-- Embedding of `CacheEntry.is_expired`: `time.time() - self.timestamp >
self.ttl_seconds` with `now` passed explicitly. -/
def CacheEntry.is_expired (e : CacheEntry α T) (now : T) : Bool :=
  decide (now - e.timestamp > e.ttl_seconds)

/-- Embedding of `CacheEntry.get_age_seconds`. -/
def CacheEntry.get_age_seconds (e : CacheEntry α T) (now : T) : T :=
  now - e.timestamp

/-- Embedding of `LRUCache`.  `cache` is the `OrderedDict`, head =
least-recently-used.  The `threading.Lock` is omitted (see module
docstring). -/
structure LRUCache (α T : Type) where
  max_size : Int
  cache : List (String × CacheEntry α T)
  hits : Nat
  misses : Nat
  evictions : Nat
deriving DecidableEq

/-- Embedding of `LRUCache.__init__`: note that it performs NO validation of
`max_size` whatsoever. -/
def LRUCache.init (max_size : Int) : LRUCache α T :=
  { max_size := max_size, cache := [], hits := 0, misses := 0, evictions := 0 }

/-- Association-list lookup, modelling `key in self.cache` (when `isSome`)
and `self.cache[key]`. -/
def lookupKey (key : String) : List (String × CacheEntry α T) → Option (CacheEntry α T)
  | [] => none
  | (k, e) :: rest => if k = key then some e else lookupKey key rest

/-- Association-list removal of (the first occurrence of) a key, modelling
`del self.cache[key]`; a no-op when the key is absent. -/
def delKey (key : String) : List (String × CacheEntry α T) → List (String × CacheEntry α T)
  | [] => []
  | (k, e) :: rest => if k = key then rest else (k, e) :: delKey key rest

/-- Embedding of `LRUCache.get`.  Hit: `move_to_end` (remove and re-append at
the most-recently-used end) and `hits += 1`.  Present-but-expired: remove,
`evictions += 1`, fall through to `misses += 1`, return `None`.  Absent:
`misses += 1`, return `None`. -/
def LRUCache.get (s : LRUCache α T) (now : T) (key : String) :
    Option α × LRUCache α T :=
  match lookupKey key s.cache with
  | some entry =>
    if entry.is_expired now then
      (none, { s with cache := delKey key s.cache,
                      evictions := s.evictions + 1,
                      misses := s.misses + 1 })
    else
      (some entry.value, { s with cache := delKey key s.cache ++ [(key, entry)],
                                  hits := s.hits + 1 })
  | none => (none, { s with misses := s.misses + 1 })

/-- Embedding of `LRUCache.set`: delete a pre-existing entry for the key,
append the fresh entry at the most-recently-used end, and if the size now
exceeds `max_size`, `popitem(last=False)` — drop the head, i.e. the
least-recently-used entry — and `evictions += 1`. -/
def LRUCache.set (s : LRUCache α T) (now : T) (key : String) (value : α)
    (ttl_seconds : T) : LRUCache α T :=
  let c2 := delKey key s.cache ++ [(key, ⟨value, now, ttl_seconds⟩)]
  if (c2.length : Int) > s.max_size then
    { s with cache := c2.tail, evictions := s.evictions + 1 }
  else
    { s with cache := c2 }

/-- Embedding of `LRUCache.delete`. -/
def LRUCache.delete (s : LRUCache α T) (key : String) : Bool × LRUCache α T :=
  if (lookupKey key s.cache).isSome then
    (true, { s with cache := delKey key s.cache })
  else
    (false, s)

/-- Embedding of `LRUCache.clear`: empties the store and resets all three
stored counters. -/
def LRUCache.clear (s : LRUCache α T) : LRUCache α T :=
  { s with cache := [], hits := 0, misses := 0, evictions := 0 }

/-- Python's `round(x, 2)` on an exact rational: round half to even at two
decimal places. -/
def pyRound2 (q : ℚ) : ℚ :=
  let x := q * 100
  let f : ℤ := ⌊x⌋
  let r := x - (f : ℚ)
  let n : ℤ :=
    if r < 1 / 2 then f
    else if 1 / 2 < r then f + 1
    else if f % 2 = 0 then f else f + 1
  (n : ℚ) / 100

/-- The dictionary returned by `LRUCache.get_stats`. -/
structure CacheStats where
  size : Nat
  max_size : Int
  hits : Nat
  misses : Nat
  evictions : Nat
  hit_rate_percent : ℚ
  total_requests : Nat
deriving Repr, DecidableEq

/-- Embedding of `LRUCache.get_stats`. -/
def LRUCache.get_stats (s : LRUCache α T) : CacheStats :=
  let total_requests := s.hits + s.misses
  let hit_rate : ℚ := if total_requests > 0 then (s.hits : ℚ) / (total_requests : ℚ) * 100 else 0
  { size := s.cache.length
    max_size := s.max_size
    hits := s.hits
    misses := s.misses
    evictions := s.evictions
    hit_rate_percent := pyRound2 hit_rate
    total_requests := total_requests }

/-- Embedding of `LRUCache.cleanup_expired`: collect the keys of all expired
entries, delete each collected key, return how many were collected.  The
hit/miss/eviction counters are not touched. -/
def LRUCache.cleanup_expired (s : LRUCache α T) (now : T) : Nat × LRUCache α T :=
  let expired_keys := (s.cache.filter (fun p => p.2.is_expired now)).map Prod.fst
  (expired_keys.length,
   { s with cache := expired_keys.foldl (fun c k => delKey k c) s.cache })

/-! ## Operation sequences on a single `LRUCache` -/

/-- One public mutating call on an `LRUCache` (with its `time.time()`
reading, for the calls that consult the clock). -/
inductive CacheOp (α T : Type) where
  | get (now : T) (key : String)
  | set (now : T) (key : String) (value : α) (ttl_seconds : T)
  | delete (key : String)
  | clear
  | cleanup_expired (now : T)

/-- State reached after one call (return values discarded). -/
def applyOp (s : LRUCache α T) : CacheOp α T → LRUCache α T
  | .get now key => (s.get now key).2
  | .set now key value ttl => s.set now key value ttl
  | .delete key => (s.delete key).2
  | .clear => s.clear
  | .cleanup_expired now => (s.cleanup_expired now).2

/-- State reached after a sequence of calls. -/
def runOps (s : LRUCache α T) (ops : List (CacheOp α T)) : LRUCache α T :=
  ops.foldl applyOp s

/-! ## `CacheService` (the pool facade) -/

/-- Embedding of `CacheService.__init__`: four fixed category caches.  Like
`LRUCache.__init__` it performs no validation — the sizes and TTLs are
hard-coded literals. -/
structure CacheService (α T : Type) where
  search_cache : LRUCache α T
  embedding_cache : LRUCache α T
  vector_cache : LRUCache α T
  integrated_cache : LRUCache α T
deriving DecidableEq

def CacheService.init : CacheService α T :=
  { search_cache := LRUCache.init 500
    embedding_cache := LRUCache.init 200
    vector_cache := LRUCache.init 300
    integrated_cache := LRUCache.init 100 }

/-- Embedding of `self.default_ttl`, the per-category default TTL dict. -/
def default_ttl : List (String × Int) :=
  [("search", 300), ("embedding", 3600), ("vector", 600), ("integrated", 300)]

/-- Embedding of `self.default_ttl[category]`; in the source the four
accessors only ever index with the four keys present in the dict, so the 0
fallback is unreachable. -/
def default_ttl_of (category : String) : Int :=
  (match default_ttl.find? (fun p => p.1 = category) with
   | some p => p.2
   | none => 0)

/-- Python's `x or d` applied to an `Optional[int]` TTL argument: `None` and
`0` are falsy and select the default; any other value is kept. -/
def pyOr (x : Option T) (d : T) : T :=
  match x with
  | none => d
  | some v => if v = 0 then d else v

/-- Python's `filters or {}` (and `context or []`) applied to an optional
dict argument: `None` becomes the empty dict; a present dict is kept (an
empty present dict is falsy in Python, but `{} or {}` is `{}` as well, so
the result coincides). -/
def orEmpty (x : Option (List β)) : List β :=
  match x with
  | none => []
  | some l => l

/-- The parameter bag built by `get_search_result` / `set_search_result`. -/
def searchParams (query : String) (filters : Option (List (String × PyVal)))
    (limit : Int) : List (String × PyVal) :=
  [("query", .pstr query), ("filters", .pdict (.ofList (orEmpty filters))),
   ("limit", .pint limit)]

/-- The parameter bag built by `get_embedding` / `set_embedding`. -/
def embeddingParams (text : String) : List (String × PyVal) :=
  [("text", .pstr text)]

/-- The parameter bag built by `get_vector_result` / `set_vector_result`. -/
def vectorParams (query : String) (limit : Int) : List (String × PyVal) :=
  [("query", .pstr query), ("limit", .pint limit)]

/-- The parameter bag built by `get_integrated_result` /
`set_integrated_result`. -/
def integratedParams (query : String) (context : Option (List PyVal)) :
    List (String × PyVal) :=
  [("query", .pstr query), ("context", .plist (.ofList (orEmpty context)))]

/-- Embedding of `CacheService.get_search_result`. -/
def CacheService.get_search_result (svc : CacheService α T)
    (md5hex16 : String → String) (now : T) (query : String)
    (filters : Option (List (String × PyVal))) (limit : Int) :
    Option α × CacheService α T :=
  let cache_key := generate_cache_key md5hex16 "search" (searchParams query filters limit)
  let r := svc.search_cache.get now cache_key
  (r.1, { svc with search_cache := r.2 })

/-- Embedding of `CacheService.set_search_result`: the stored TTL is
`ttl_seconds or self.default_ttl["search"]`. -/
def CacheService.set_search_result (svc : CacheService α T)
    (md5hex16 : String → String) (now : T) (query : String)
    (filters : Option (List (String × PyVal))) (limit : Int) (result : α)
    (ttl_seconds : Option T) : CacheService α T :=
  let cache_key := generate_cache_key md5hex16 "search" (searchParams query filters limit)
  let ttl := pyOr ttl_seconds ((default_ttl_of "search" : Int) : T)
  { svc with search_cache := svc.search_cache.set now cache_key result ttl }

/-- Embedding of `CacheService.get_embedding`. -/
def CacheService.get_embedding (svc : CacheService α T)
    (md5hex16 : String → String) (now : T) (text : String) :
    Option α × CacheService α T :=
  let cache_key := generate_cache_key md5hex16 "embedding" (embeddingParams text)
  let r := svc.embedding_cache.get now cache_key
  (r.1, { svc with embedding_cache := r.2 })

/-- Embedding of `CacheService.set_embedding`. -/
def CacheService.set_embedding (svc : CacheService α T)
    (md5hex16 : String → String) (now : T) (text : String) (embedding : α)
    (ttl_seconds : Option T) : CacheService α T :=
  let cache_key := generate_cache_key md5hex16 "embedding" (embeddingParams text)
  let ttl := pyOr ttl_seconds ((default_ttl_of "embedding" : Int) : T)
  { svc with embedding_cache := svc.embedding_cache.set now cache_key embedding ttl }

/-- Embedding of `CacheService.get_vector_result`. -/
def CacheService.get_vector_result (svc : CacheService α T)
    (md5hex16 : String → String) (now : T) (query : String) (limit : Int) :
    Option α × CacheService α T :=
  let cache_key := generate_cache_key md5hex16 "vector" (vectorParams query limit)
  let r := svc.vector_cache.get now cache_key
  (r.1, { svc with vector_cache := r.2 })

/-- Embedding of `CacheService.set_vector_result`. -/
def CacheService.set_vector_result (svc : CacheService α T)
    (md5hex16 : String → String) (now : T) (query : String) (limit : Int)
    (result : α) (ttl_seconds : Option T) : CacheService α T :=
  let cache_key := generate_cache_key md5hex16 "vector" (vectorParams query limit)
  let ttl := pyOr ttl_seconds ((default_ttl_of "vector" : Int) : T)
  { svc with vector_cache := svc.vector_cache.set now cache_key result ttl }

/-- Embedding of `CacheService.get_integrated_result`. -/
def CacheService.get_integrated_result (svc : CacheService α T)
    (md5hex16 : String → String) (now : T) (query : String)
    (context : Option (List PyVal)) : Option α × CacheService α T :=
  let cache_key := generate_cache_key md5hex16 "integrated" (integratedParams query context)
  let r := svc.integrated_cache.get now cache_key
  (r.1, { svc with integrated_cache := r.2 })

/-- Embedding of `CacheService.set_integrated_result`. -/
def CacheService.set_integrated_result (svc : CacheService α T)
    (md5hex16 : String → String) (now : T) (query : String)
    (context : Option (List PyVal)) (result : α) (ttl_seconds : Option T) :
    CacheService α T :=
  let cache_key := generate_cache_key md5hex16 "integrated" (integratedParams query context)
  let ttl := pyOr ttl_seconds ((default_ttl_of "integrated" : Int) : T)
  { svc with integrated_cache := svc.integrated_cache.set now cache_key result ttl }

/-- Embedding of `CacheService.clear_all`. -/
def CacheService.clear_all (svc : CacheService α T) : CacheService α T :=
  { search_cache := svc.search_cache.clear
    embedding_cache := svc.embedding_cache.clear
    vector_cache := svc.vector_cache.clear
    integrated_cache := svc.integrated_cache.clear }

/-- The dictionary returned by `CacheService.get_stats`. -/
structure ServiceStats where
  search_cache : CacheStats
  embedding_cache : CacheStats
  vector_cache : CacheStats
  integrated_cache : CacheStats
  total_cached_items : Nat
  total_hits : Nat
  total_misses : Nat
  total_evictions : Nat
deriving Repr, DecidableEq

/-- Embedding of `CacheService.get_stats`. -/
def CacheService.get_stats (svc : CacheService α T) : ServiceStats :=
  { search_cache := svc.search_cache.get_stats
    embedding_cache := svc.embedding_cache.get_stats
    vector_cache := svc.vector_cache.get_stats
    integrated_cache := svc.integrated_cache.get_stats
    total_cached_items := svc.search_cache.cache.length + svc.embedding_cache.cache.length +
      svc.vector_cache.cache.length + svc.integrated_cache.cache.length
    total_hits := svc.search_cache.hits + svc.embedding_cache.hits +
      svc.vector_cache.hits + svc.integrated_cache.hits
    total_misses := svc.search_cache.misses + svc.embedding_cache.misses +
      svc.vector_cache.misses + svc.integrated_cache.misses
    total_evictions := svc.search_cache.evictions + svc.embedding_cache.evictions +
      svc.vector_cache.evictions + svc.integrated_cache.evictions }

/-- The per-category count map returned by `CacheService.cleanup_expired_async`. -/
structure SweepCounts where
  search : Nat
  embedding : Nat
  vector : Nat
  integrated : Nat
deriving Repr, DecidableEq

/-- Embedding of `CacheService.cleanup_expired_async` (the `await` /
thread-pool offload is a scheduling wrapper around the synchronous
`cleanup_all` closure, which is what is modelled). -/
def CacheService.cleanup_expired_async (svc : CacheService α T) (now : T) :
    SweepCounts × CacheService α T :=
  let rs := svc.search_cache.cleanup_expired now
  let re := svc.embedding_cache.cleanup_expired now
  let rv := svc.vector_cache.cleanup_expired now
  let ri := svc.integrated_cache.cleanup_expired now
  ({ search := rs.1, embedding := re.1, vector := rv.1, integrated := ri.1 },
   { search_cache := rs.2, embedding_cache := re.2,
     vector_cache := rv.2, integrated_cache := ri.2 })

/-! ## Order properties of the key comparison -/

theorem clLeb_total : ∀ a b : List Char, clLeb a b = true ∨ clLeb b a = true
  | [], _ => Or.inl rfl
  | _ :: _, [] => Or.inr rfl
  | c :: cs, d :: ds => by
    rcases lt_trichotomy c d with h | h | h
    · left; simp [clLeb, h]
    · subst h
      rcases clLeb_total cs ds with h2 | h2
      · left; simp [clLeb, h2]
      · right; simp [clLeb, h2]
    · right; simp [clLeb, h]

theorem clLeb_cons_self (c : Char) (cs ds : List Char) :
    clLeb (c :: cs) (c :: ds) = clLeb cs ds := by
  simp [clLeb]

theorem clLeb_trans : ∀ a b c : List Char,
    clLeb a b = true → clLeb b c = true → clLeb a c = true
  | [], _, _, _, _ => rfl
  | _ :: _, [], _, h1, _ => by simp [clLeb] at h1
  | _ :: _, _ :: _, [], _, h2 => by simp [clLeb] at h2
  | x :: xs, y :: ys, z :: zs, h1, h2 => by
    rcases lt_trichotomy x y with hxy | hxy | hxy
    · rcases lt_trichotomy y z with hyz | hyz | hyz
      · simp [clLeb, lt_trans hxy hyz]
      · subst hyz; simp [clLeb, hxy]
      · simp [clLeb, hyz, asymm hyz] at h2
    · subst hxy
      rcases lt_trichotomy x z with hxz | hxz | hxz
      · simp [clLeb, hxz]
      · subst hxz
        rw [clLeb_cons_self] at h1 h2 ⊢
        exact clLeb_trans xs ys zs h1 h2
      · simp [clLeb, hxz, asymm hxz] at h2
    · simp [clLeb, hxy, asymm hxy] at h1

theorem clLeb_antisymm : ∀ a b : List Char,
    clLeb a b = true → clLeb b a = true → a = b
  | [], [], _, _ => rfl
  | [], _ :: _, _, h2 => by simp [clLeb] at h2
  | _ :: _, [], h1, _ => by simp [clLeb] at h1
  | x :: xs, y :: ys, h1, h2 => by
    rcases lt_trichotomy x y with hxy | hxy | hxy
    · simp [clLeb, hxy, asymm hxy] at h2
    · subst hxy
      rw [clLeb_cons_self] at h1 h2
      rw [clLeb_antisymm xs ys h1 h2]
    · simp [clLeb, hxy, asymm hxy] at h1

/-- Strict version of `keyLE`, used only to state uniqueness of the sorted
entry list. -/
def keyLT (a b : String × String) : Prop := ¬ keyLE b a

instance : IsTotal (String × String) keyLE :=
  ⟨fun a b => clLeb_total a.1.data b.1.data⟩

instance : IsTrans (String × String) keyLE :=
  ⟨fun a b c => clLeb_trans a.1.data b.1.data c.1.data⟩

instance : IsAntisymm (String × String) keyLT :=
  ⟨fun a b h1 h2 =>
    absurd ((clLeb_total a.1.data b.1.data).resolve_left h2) h1⟩

theorem keyLE_antisymm_fst {a b : String × String} (h1 : keyLE a b) (h2 : keyLE b a) :
    a.1 = b.1 :=
  String.ext (clLeb_antisymm a.1.data b.1.data h1 h2)

theorem sorted_keyLT_of_sorted_keyLE {l : List (String × String)}
    (hs : l.Sorted keyLE) (hn : (l.map Prod.fst).Nodup) : l.Sorted keyLT := by
  have hne : l.Pairwise (fun a b => a.1 ≠ b.1) := List.pairwise_map.mp hn
  exact (hs.and hne).imp fun hab hba => hab.2 (keyLE_antisymm_fst hab.1 hba)

/-- Two lists of serialized dict entries that are permutations of each other
with duplicate-free keys sort to the same list. -/
theorem insertionSort_eq_of_perm {l1 l2 : List (String × String)}
    (hp : l1.Perm l2) (hn : (l1.map Prod.fst).Nodup) :
    List.insertionSort keyLE l1 = List.insertionSort keyLE l2 := by
  have p1 := List.perm_insertionSort keyLE l1
  have p2 := List.perm_insertionSort keyLE l2
  have hps : (List.insertionSort keyLE l1).Perm (List.insertionSort keyLE l2) :=
    p1.trans (hp.trans p2.symm)
  have hn1 : ((List.insertionSort keyLE l1).map Prod.fst).Nodup :=
    ((p1.map Prod.fst).nodup_iff).mpr hn
  have hn2 : ((List.insertionSort keyLE l2).map Prod.fst).Nodup :=
    ((hps.map Prod.fst).nodup_iff).mp hn1
  exact List.eq_of_perm_of_sorted hps
    (sorted_keyLT_of_sorted_keyLE (List.sorted_insertionSort keyLE l1) hn1)
    (sorted_keyLT_of_sorted_keyLE (List.sorted_insertionSort keyLE l2) hn2)

/-! ## Serialization lemmas -/

theorem dumpsEntries_ofList (l : List (String × PyVal)) :
    dumpsEntries (.ofList l) = l.map (fun p => (p.1, dumps p.2)) := by
  induction l with
  | nil => rfl
  | cons p rest ih =>
    obtain ⟨k, v⟩ := p
    simp [PyEntryList.ofList, dumpsEntries, ih]

/-- Serializing a dict only depends on the per-entry pairs
`(key, serialized value)`. -/
theorem dumps_pdict_congr {l1 l2 : List (String × PyVal)}
    (h : l1.map (fun p => (p.1, dumps p.2)) = l2.map (fun p => (p.1, dumps p.2))) :
    dumps (.pdict (.ofList l1)) = dumps (.pdict (.ofList l2)) := by
  simp only [dumps, dumpsEntries_ofList, h]

/-- Serializing a dict is invariant under permutation of its entries, as long
as keys are not duplicated (a Python dict cannot hold a duplicate key). -/
theorem dumps_pdict_perm {l1 l2 : List (String × PyVal)} (hp : l1.Perm l2)
    (hn : (l1.map Prod.fst).Nodup) :
    dumps (.pdict (.ofList l1)) = dumps (.pdict (.ofList l2)) := by
  have he : (dumpsEntries (.ofList l1)).Perm (dumpsEntries (.ofList l2)) := by
    rw [dumpsEntries_ofList, dumpsEntries_ofList]
    exact hp.map _
  have hnk : ((dumpsEntries (.ofList l1)).map Prod.fst).Nodup := by
    rw [dumpsEntries_ofList, List.map_map]
    exact hn
  simp only [dumps]
  rw [insertionSort_eq_of_perm he hnk]

/-! ## Association-list lemmas -/

theorem delKey_sublist (key : String) (l : List (String × CacheEntry α T)) :
    (delKey key l).Sublist l := by
  induction l with
  | nil => simp [delKey]
  | cons p rest ih =>
    obtain ⟨k, e⟩ := p
    simp only [delKey]
    split
    · exact List.sublist_cons_self _ _
    · exact ih.cons₂ _

theorem length_delKey_le (key : String) (l : List (String × CacheEntry α T)) :
    (delKey key l).length ≤ l.length :=
  (delKey_sublist key l).length_le

theorem lookupKey_eq_none_iff {key : String} {l : List (String × CacheEntry α T)} :
    lookupKey key l = none ↔ key ∉ l.map Prod.fst := by
  induction l with
  | nil => simp [lookupKey]
  | cons p rest ih =>
    obtain ⟨k, e⟩ := p
    simp only [lookupKey, List.map_cons, List.mem_cons]
    split
    · rename_i h
      subst h
      simp
    · rename_i h
      rw [ih]
      constructor
      · rintro hk (h1 | h2)
        · exact h h1.symm
        · exact hk h2
      · intro hk
        exact fun h2 => hk (Or.inr h2)

theorem lookupKey_mem {key : String} {l : List (String × CacheEntry α T)}
    {e : CacheEntry α T} (h : lookupKey key l = some e) : (key, e) ∈ l := by
  induction l with
  | nil => simp [lookupKey] at h
  | cons p rest ih =>
    obtain ⟨k, e2⟩ := p
    simp only [lookupKey] at h
    split at h
    · rename_i hk
      subst hk
      obtain rfl : e2 = e := by injection h
      exact List.mem_cons_self _ _
    · exact List.mem_cons_of_mem _ (ih h)

theorem length_delKey_of_lookup_some {key : String}
    {l : List (String × CacheEntry α T)} {e : CacheEntry α T}
    (h : lookupKey key l = some e) : (delKey key l).length + 1 = l.length := by
  induction l with
  | nil => simp [lookupKey] at h
  | cons p rest ih =>
    obtain ⟨k, e2⟩ := p
    simp only [lookupKey] at h
    simp only [delKey]
    split <;> rename_i hk
    · simp
    · rw [if_neg hk] at h
      simp [ih h]

theorem not_mem_keys_delKey_self {key : String} {l : List (String × CacheEntry α T)}
    (hn : (l.map Prod.fst).Nodup) : key ∉ (delKey key l).map Prod.fst := by
  induction l with
  | nil => simp [delKey]
  | cons p rest ih =>
    obtain ⟨k, e⟩ := p
    simp only [List.map_cons, List.nodup_cons] at hn
    simp only [delKey]
    split
    · rename_i hk
      subst hk
      exact fun hmem => hn.1 hmem
    · rename_i hk
      simp only [List.map_cons, List.mem_cons]
      rintro (h1 | h2)
      · exact hk h1.symm
      · exact ih hn.2 h2

theorem nodup_keys_delKey (key : String) {l : List (String × CacheEntry α T)}
    (hn : (l.map Prod.fst).Nodup) : ((delKey key l).map Prod.fst).Nodup :=
  ((delKey_sublist key l).map Prod.fst).nodup hn

theorem lookupKey_delKey_self {key : String} {l : List (String × CacheEntry α T)}
    (hn : (l.map Prod.fst).Nodup) : lookupKey key (delKey key l) = none :=
  lookupKey_eq_none_iff.mpr (not_mem_keys_delKey_self hn)

theorem lookupKey_append_of_not_mem {key : String}
    {l1 l2 : List (String × CacheEntry α T)} (h : key ∉ l1.map Prod.fst) :
    lookupKey key (l1 ++ l2) = lookupKey key l2 := by
  induction l1 with
  | nil => rfl
  | cons p rest ih =>
    obtain ⟨k, e⟩ := p
    simp only [List.map_cons, List.mem_cons, not_or] at h
    have hk : ¬ k = key := fun hk => h.1 hk.symm
    simp only [List.cons_append, lookupKey, if_neg hk]
    exact ih h.2

theorem lookupKey_singleton_self (key : String) (e : CacheEntry α T) :
    lookupKey key [(key, e)] = some e := by
  simp [lookupKey]

theorem nodup_keys_append_singleton {key : String} {l : List (String × CacheEntry α T)}
    (hn : (l.map Prod.fst).Nodup) (hk : key ∉ l.map Prod.fst) (e : CacheEntry α T) :
    ((l ++ [(key, e)]).map Prod.fst).Nodup := by
  rw [List.map_append]
  rw [List.nodup_append]
  refine ⟨hn, List.nodup_singleton _, ?_⟩
  intro a ha hb
  simp only [List.map_cons, List.map_nil, List.mem_singleton] at hb
  subst hb
  exact hk ha

theorem foldl_delKey_sublist : ∀ (ks : List String) (l : List (String × CacheEntry α T)),
    (ks.foldl (fun c k => delKey k c) l).Sublist l
  | [], _ => List.Sublist.refl _
  | k :: ks, l => (foldl_delKey_sublist ks (delKey k l)).trans (delKey_sublist k l)

theorem delKey_eq_filter {key : String} {l : List (String × CacheEntry α T)}
    (hn : (l.map Prod.fst).Nodup) :
    delKey key l = l.filter (fun p => decide (p.1 ≠ key)) := by
  induction l with
  | nil => rfl
  | cons p rest ih =>
    obtain ⟨k, e⟩ := p
    simp only [List.map_cons, List.nodup_cons] at hn
    simp only [delKey]
    split
    · rename_i hk
      subst hk
      rw [List.filter_cons_of_neg (by simp)]
      symm
      rw [List.filter_eq_self]
      intro p hp
      simp only [decide_eq_true_eq]
      intro hpk
      exact hn.1 (hpk ▸ List.mem_map_of_mem Prod.fst hp)
    · rename_i hk
      rw [List.filter_cons_of_pos (by simp [fun h => hk h])]
      rw [ih hn.2]

theorem foldl_delKey_eq_filter : ∀ (ks : List String)
    (l : List (String × CacheEntry α T)), (l.map Prod.fst).Nodup →
    ks.foldl (fun c k => delKey k c) l = l.filter (fun p => decide (p.1 ∉ ks))
  | [], l, _ => by simp
  | k :: ks, l, hn => by
    have step : List.foldl (fun c k => delKey k c) l (k :: ks) =
        List.foldl (fun c k => delKey k c) (delKey k l) ks := rfl
    rw [step, foldl_delKey_eq_filter ks (delKey k l) (nodup_keys_delKey k hn),
        delKey_eq_filter hn, List.filter_filter]
    apply List.filter_congr
    intro p _
    simp only [List.mem_cons, decide_eq_true_eq, Bool.and_eq_true, not_or]
    by_cases h1 : p.1 = k <;> by_cases h2 : p.1 ∈ ks <;> simp [h1, h2]

/-! ## Characterizations of the `LRUCache` operations -/

theorem LRUCache.get_none {s : LRUCache α T} {now : T} {key : String}
    (h : lookupKey key s.cache = none) :
    s.get now key = (none, { s with misses := s.misses + 1 }) := by
  simp [LRUCache.get, h]

theorem LRUCache.get_expired {s : LRUCache α T} {now : T} {key : String}
    {e : CacheEntry α T} (h : lookupKey key s.cache = some e)
    (he : e.is_expired now = true) :
    s.get now key = (none, { s with cache := delKey key s.cache,
                                    evictions := s.evictions + 1,
                                    misses := s.misses + 1 }) := by
  simp [LRUCache.get, h, he]

theorem LRUCache.get_hit {s : LRUCache α T} {now : T} {key : String}
    {e : CacheEntry α T} (h : lookupKey key s.cache = some e)
    (he : e.is_expired now = false) :
    s.get now key = (some e.value,
      { s with cache := delKey key s.cache ++ [(key, e)], hits := s.hits + 1 }) := by
  simp [LRUCache.get, h, he]

theorem LRUCache.set_overflow {s : LRUCache α T} {now : T} {key : String}
    {value : α} {ttl : T}
    (h : ((delKey key s.cache ++
        [(key, (⟨value, now, ttl⟩ : CacheEntry α T))]).length : Int) > s.max_size) :
    s.set now key value ttl =
      { s with cache := (delKey key s.cache ++
          [(key, (⟨value, now, ttl⟩ : CacheEntry α T))]).tail,
               evictions := s.evictions + 1 } := by
  simp only [LRUCache.set]
  rw [if_pos h]

theorem LRUCache.set_fits {s : LRUCache α T} {now : T} {key : String}
    {value : α} {ttl : T}
    (h : ¬ ((delKey key s.cache ++
        [(key, (⟨value, now, ttl⟩ : CacheEntry α T))]).length : Int) > s.max_size) :
    s.set now key value ttl =
      { s with cache := delKey key s.cache ++
          [(key, (⟨value, now, ttl⟩ : CacheEntry α T))] } := by
  simp only [LRUCache.set]
  rw [if_neg h]

theorem LRUCache.set_hits_eq (s : LRUCache α T) (now : T) (key : String)
    (value : α) (ttl : T) : (s.set now key value ttl).hits = s.hits := by
  simp only [LRUCache.set]
  split <;> rfl

theorem LRUCache.set_misses_eq (s : LRUCache α T) (now : T) (key : String)
    (value : α) (ttl : T) : (s.set now key value ttl).misses = s.misses := by
  simp only [LRUCache.set]
  split <;> rfl

theorem LRUCache.set_cache_getLast {s : LRUCache α T} (hcap : 1 ≤ s.max_size)
    (now : T) (key : String) (value : α) (ttl : T) :
    (s.set now key value ttl).cache.getLast? =
      some (key, (⟨value, now, ttl⟩ : CacheEntry α T)) := by
  by_cases h : ((delKey key s.cache ++
      [(key, (⟨value, now, ttl⟩ : CacheEntry α T))]).length : Int) > s.max_size
  · rw [LRUCache.set_overflow h]
    cases hd : delKey key s.cache with
    | nil =>
      exfalso
      rw [hd] at h
      simp only [List.nil_append, List.length_singleton] at h
      omega
    | cons a rest =>
      dsimp only
      simp only [List.cons_append, List.tail_cons]
      exact List.getLast?_concat _
  · rw [LRUCache.set_fits h]
    exact List.getLast?_concat _

theorem lookupKey_set_self {s : LRUCache α T} (hn : (s.cache.map Prod.fst).Nodup)
    (hcap : 1 ≤ s.max_size) (now : T) (key : String) (value : α) (ttl : T) :
    lookupKey key (s.set now key value ttl).cache =
      some (⟨value, now, ttl⟩ : CacheEntry α T) := by
  by_cases h : ((delKey key s.cache ++
      [(key, (⟨value, now, ttl⟩ : CacheEntry α T))]).length : Int) > s.max_size
  · rw [LRUCache.set_overflow h]
    have h1 := @not_mem_keys_delKey_self α T _ key s.cache hn
    cases hd : delKey key s.cache with
    | nil =>
      exfalso
      rw [hd] at h
      simp only [List.nil_append, List.length_singleton] at h
      omega
    | cons a rest =>
      dsimp only
      simp only [List.cons_append, List.tail_cons]
      rw [hd] at h1
      simp only [List.map_cons, List.mem_cons, not_or] at h1
      rw [lookupKey_append_of_not_mem h1.2, lookupKey_singleton_self]
  · rw [LRUCache.set_fits h]
    rw [lookupKey_append_of_not_mem (not_mem_keys_delKey_self hn),
        lookupKey_singleton_self]

/-! ## Invariant preservation over operation sequences -/

theorem applyOp_max_size (s : LRUCache α T) (op : CacheOp α T) :
    (applyOp s op).max_size = s.max_size := by
  cases op with
  | get now key =>
    rcases hl : lookupKey key s.cache with _ | e
    · rw [applyOp, LRUCache.get_none hl]
    · cases he : e.is_expired now
      · rw [applyOp, LRUCache.get_hit hl he]
      · rw [applyOp, LRUCache.get_expired hl he]
  | set now key value ttl =>
    simp only [applyOp, LRUCache.set]
    split <;> rfl
  | delete key =>
    simp only [applyOp, LRUCache.delete]
    split <;> rfl
  | clear => rfl
  | cleanup_expired now => rfl

theorem applyOp_capacity {s : LRUCache α T} (h0 : 0 ≤ s.max_size)
    (h : (s.cache.length : Int) ≤ s.max_size) (op : CacheOp α T) :
    ((applyOp s op).cache.length : Int) ≤ (applyOp s op).max_size := by
  rw [applyOp_max_size]
  cases op with
  | get now key =>
    rcases hl : lookupKey key s.cache with _ | e
    · rw [applyOp, LRUCache.get_none hl]
      exact h
    · cases he : e.is_expired now
      · have hlen := length_delKey_of_lookup_some hl
        rw [applyOp, LRUCache.get_hit hl he]
        dsimp only
        simp only [List.length_append, List.length_singleton]
        omega
      · have hlen := length_delKey_le key s.cache
        rw [applyOp, LRUCache.get_expired hl he]
        dsimp only
        omega
  | set now key value ttl =>
    have hlen := length_delKey_le key s.cache
    simp only [applyOp, LRUCache.set]
    split <;> rename_i hov <;> dsimp only
    · simp only [List.length_tail, List.length_append, List.length_singleton]
      omega
    · simp only [List.length_append, List.length_singleton] at hov ⊢
      omega
  | delete key =>
    have hlen := length_delKey_le key s.cache
    simp only [applyOp, LRUCache.delete]
    split <;> dsimp only
    · omega
    · exact h
  | clear =>
    simp only [applyOp, LRUCache.clear]
    simpa using h0
  | cleanup_expired now =>
    have hlen := (foldl_delKey_sublist
      ((s.cache.filter (fun p => p.2.is_expired now)).map Prod.fst) s.cache).length_le
    simp only [applyOp, LRUCache.cleanup_expired]
    omega

theorem runOps_max_size (s : LRUCache α T) (ops : List (CacheOp α T)) :
    (runOps s ops).max_size = s.max_size := by
  induction ops generalizing s with
  | nil => rfl
  | cons op ops ih =>
    have h1 : runOps s (op :: ops) = runOps (applyOp s op) ops := rfl
    rw [h1, ih, applyOp_max_size]

theorem runOps_capacity {s : LRUCache α T} (h0 : 0 ≤ s.max_size)
    (h : (s.cache.length : Int) ≤ s.max_size) (ops : List (CacheOp α T)) :
    ((runOps s ops).cache.length : Int) ≤ (runOps s ops).max_size := by
  induction ops generalizing s with
  | nil => exact h
  | cons op ops ih =>
    have h1 : runOps s (op :: ops) = runOps (applyOp s op) ops := rfl
    rw [h1]
    exact ih (by rw [applyOp_max_size]; exact h0) (applyOp_capacity h0 h op)

theorem applyOp_nodup {s : LRUCache α T} (hn : (s.cache.map Prod.fst).Nodup)
    (op : CacheOp α T) : ((applyOp s op).cache.map Prod.fst).Nodup := by
  cases op with
  | get now key =>
    rcases hl : lookupKey key s.cache with _ | e
    · rw [applyOp, LRUCache.get_none hl]
      exact hn
    · cases he : e.is_expired now
      · rw [applyOp, LRUCache.get_hit hl he]
        exact nodup_keys_append_singleton (nodup_keys_delKey key hn)
          (not_mem_keys_delKey_self hn) e
      · rw [applyOp, LRUCache.get_expired hl he]
        exact nodup_keys_delKey key hn
  | set now key value ttl =>
    have hc2 : ((delKey key s.cache ++
        [(key, (⟨value, now, ttl⟩ : CacheEntry α T))]).map Prod.fst).Nodup :=
      nodup_keys_append_singleton (nodup_keys_delKey key hn)
        (not_mem_keys_delKey_self hn) _
    simp only [applyOp, LRUCache.set]
    split <;> dsimp only
    · exact ((List.tail_sublist _).map Prod.fst).nodup hc2
    · exact hc2
  | delete key =>
    simp only [applyOp, LRUCache.delete]
    split <;> dsimp only
    · exact nodup_keys_delKey key hn
    · exact hn
  | clear => simp [applyOp, LRUCache.clear]
  | cleanup_expired now =>
    simp only [applyOp, LRUCache.cleanup_expired]
    exact ((foldl_delKey_sublist _ _).map Prod.fst).nodup hn

theorem runOps_nodup {s : LRUCache α T} (hn : (s.cache.map Prod.fst).Nodup)
    (ops : List (CacheOp α T)) : ((runOps s ops).cache.map Prod.fst).Nodup := by
  induction ops generalizing s with
  | nil => exact hn
  | cons op ops ih => exact ih (applyOp_nodup hn op)

/-! ## Sweep lemmas -/

theorem cleanup_expired_count (s : LRUCache α T) (now : T) :
    (s.cleanup_expired now).1 =
      (s.cache.filter (fun p => p.2.is_expired now)).length := by
  simp [LRUCache.cleanup_expired]

theorem cleanup_expired_cache {s : LRUCache α T} (now : T)
    (hn : (s.cache.map Prod.fst).Nodup) :
    (s.cleanup_expired now).2.cache =
      s.cache.filter (fun p => !(p.2.is_expired now)) := by
  simp only [LRUCache.cleanup_expired]
  rw [foldl_delKey_eq_filter _ _ hn]
  apply List.filter_congr
  intro p hp
  by_cases hexp : p.2.is_expired now = true
  · have hmem : p.1 ∈ (s.cache.filter (fun q => q.2.is_expired now)).map Prod.fst :=
      List.mem_map_of_mem _ (List.mem_filter.mpr ⟨hp, hexp⟩)
    simp [hmem, hexp]
  · have hnot : p.1 ∉ (s.cache.filter (fun q => q.2.is_expired now)).map Prod.fst := by
      intro hmem
      rcases List.mem_map.mp hmem with ⟨q, hq, hq1⟩
      have hqc := (List.mem_filter.mp hq).1
      have hqe := (List.mem_filter.mp hq).2
      rw [List.inj_on_of_nodup_map hn hqc hp hq1] at hqe
      exact hexp hqe
    simp only [Bool.not_eq_true] at hexp
    simp [hnot, hexp]

theorem cleanup_expired_of_none_expired {s : LRUCache α T} {now : T}
    (h : ∀ p ∈ s.cache, p.2.is_expired now = false) :
    s.cleanup_expired now = (0, s) := by
  have hf : s.cache.filter (fun p => p.2.is_expired now) = [] :=
    List.filter_eq_nil_iff.mpr (fun p hp => by simp [h p hp])
  simp [LRUCache.cleanup_expired, hf]

theorem cleanup_expired_async_of_none_expired {svc : CacheService α T} {now : T}
    (h1 : ∀ p ∈ svc.search_cache.cache, p.2.is_expired now = false)
    (h2 : ∀ p ∈ svc.embedding_cache.cache, p.2.is_expired now = false)
    (h3 : ∀ p ∈ svc.vector_cache.cache, p.2.is_expired now = false)
    (h4 : ∀ p ∈ svc.integrated_cache.cache, p.2.is_expired now = false) :
    svc.cleanup_expired_async now =
      ({ search := 0, embedding := 0, vector := 0, integrated := 0 }, svc) := by
  simp only [CacheService.cleanup_expired_async,
    cleanup_expired_of_none_expired h1, cleanup_expired_of_none_expired h2,
    cleanup_expired_of_none_expired h3, cleanup_expired_of_none_expired h4]

/-! ## Claim theorems -/

/-- C1: on an `LRUCache` with `max_size > 0`, the size never exceeds
`max_size` after any sequence of get/set/delete/clear/cleanup operations;
and a `set` whose insertion makes the store exceed `max_size` drops exactly
the head of the recency list (the least-recently-used entry) and increments
the eviction counter by exactly 1, while a `set` that fits leaves the
eviction counter unchanged — in both cases independently of the TTL state
of any entry. -/
theorem lru_capacity_and_single_eviction {α T : Type} [LinearOrderedCommRing T]
    (m : Int) (hm : 0 < m) :
    (∀ ops : List (CacheOp α T),
       ((runOps (LRUCache.init m) ops).cache.length : Int) ≤ m)
    ∧ (∀ (s : LRUCache α T), s.max_size = m →
       ∀ (now : T) (key : String) (value : α) (ttl : T),
       (((delKey key s.cache ++
           [(key, (⟨value, now, ttl⟩ : CacheEntry α T))]).length : Int) > m →
         (s.set now key value ttl).cache =
           (delKey key s.cache ++ [(key, (⟨value, now, ttl⟩ : CacheEntry α T))]).tail ∧
         (s.set now key value ttl).evictions = s.evictions + 1)
       ∧ (((delKey key s.cache ++
           [(key, (⟨value, now, ttl⟩ : CacheEntry α T))]).length : Int) ≤ m →
         (s.set now key value ttl).cache =
           delKey key s.cache ++ [(key, (⟨value, now, ttl⟩ : CacheEntry α T))] ∧
         (s.set now key value ttl).evictions = s.evictions)) := by
  constructor
  · intro ops
    have h := runOps_capacity (s := LRUCache.init (α := α) (T := T) m)
      (le_of_lt hm) (by simp [LRUCache.init]; omega) ops
    rwa [runOps_max_size] at h
  · intro s hs now key value ttl
    constructor
    · intro hov
      rw [LRUCache.set_overflow (by rw [hs]; exact hov)]
      exact ⟨rfl, rfl⟩
    · intro hfit
      rw [LRUCache.set_fits (by rw [hs]; exact not_lt.mpr hfit)]
      exact ⟨rfl, rfl⟩

/-- Witness for C1: a cache with `max_size = 1` receiving two distinct sets
stays within its bound. -/
theorem lru_capacity_and_single_eviction_witness :
    (0 : Int) < 1 ∧
    ((runOps (LRUCache.init (α := Int) (T := Int) 1)
      [.set 0 "a" 7 300, .set 0 "b" 8 300]).cache.length : Int) ≤ 1 :=
  ⟨by decide, (lru_capacity_and_single_eviction 1 (by decide)).1 _⟩

/-- C2: `get` on a present-but-expired entry returns `None`, removes the
entry, increments both the eviction and the miss counters by 1, and the size
reported by a subsequent `get_stats` reflects the removal. -/
theorem get_expired_removes_and_counts {α T : Type} [LinearOrderedCommRing T]
    (s : LRUCache α T) (now : T) (key : String) (e : CacheEntry α T)
    (hn : (s.cache.map Prod.fst).Nodup)
    (hl : lookupKey key s.cache = some e)
    (he : e.is_expired now = true) :
    (s.get now key).1 = none ∧
    (s.get now key).2.evictions = s.evictions + 1 ∧
    (s.get now key).2.misses = s.misses + 1 ∧
    lookupKey key ((s.get now key).2.cache) = none ∧
    ((s.get now key).2.get_stats).size + 1 = (s.get_stats).size := by
  rw [LRUCache.get_expired hl he]
  refine ⟨rfl, rfl, rfl, lookupKey_delKey_self hn, ?_⟩
  simp only [LRUCache.get_stats]
  exact length_delKey_of_lookup_some hl

/-- Witness for C2: a key set at time 0 with TTL 5 and read at time 6. -/
theorem get_expired_removes_and_counts_witness :
    (((runOps (LRUCache.init (α := Int) (T := Int) 10)
        [.set 0 "k" 42 5]).cache.map Prod.fst).Nodup ∧
     lookupKey "k" (runOps (LRUCache.init (α := Int) (T := Int) 10)
        [.set 0 "k" 42 5]).cache = some ⟨42, 0, 5⟩ ∧
     (⟨42, 0, 5⟩ : CacheEntry Int Int).is_expired 6 = true) ∧
    ((runOps (LRUCache.init (α := Int) (T := Int) 10)
        [.set 0 "k" 42 5]).get 6 "k").1 = none ∧
    ((runOps (LRUCache.init (α := Int) (T := Int) 10)
        [.set 0 "k" 42 5]).get 6 "k").2.evictions =
      (runOps (LRUCache.init (α := Int) (T := Int) 10)
        [.set 0 "k" 42 5]).evictions + 1 :=
  ⟨⟨by decide, by decide, by decide⟩,
   (get_expired_removes_and_counts _ 6 "k" ⟨42, 0, 5⟩
      (by decide) (by decide) (by decide)).1,
   (get_expired_removes_and_counts _ 6 "k" ⟨42, 0, 5⟩
      (by decide) (by decide) (by decide)).2.1⟩

/-- C3 counterexample: key derivation does NOT fail on a non-serializable
parameter value.  `json.dumps(..., default=str)` silently coerces the object
to its `str()` text, so a bag holding a non-serializable object (here, a
Python set whose `str()` is `{1, 2}`) produces exactly the same key content
as the different bag holding the plain string `"{1, 2}"` — a silent
wrong-key collision instead of a loud error. -/
theorem nonserializable_key_collision :
    (PyVal.pobj "\x7b1, 2\x7d" ≠ PyVal.pstr "\x7b1, 2\x7d") ∧
    cache_key_content "search" [("query", PyVal.pobj "\x7b1, 2\x7d")] =
      cache_key_content "search" [("query", PyVal.pstr "\x7b1, 2\x7d")] :=
  ⟨fun h => PyVal.noConfusion h, rfl⟩

/-- C3 (amended): key derivation never raises for a non-serializable value;
`default=str` coerces it, so the generated key equals the key of the bag
with the object replaced by its string representation. -/
theorem key_derivation_coerces_nonserializable
    (md5hex16 : String → String) (operation : String) (k r : String)
    (rest : List (String × PyVal)) :
    generate_cache_key md5hex16 operation ((k, PyVal.pobj r) :: rest) =
      generate_cache_key md5hex16 operation ((k, PyVal.pstr r) :: rest) := rfl

/-- C4: key derivation is a pure function of (operation, parameter bag),
invariant under permutation of a bag's entries (at the top level and inside
the `filters` sub-dict) when keys are duplicate-free, and `filters=None`
yields the same key as `filters={}`. -/
theorem cache_key_canonicalization :
    (∀ (md5hex16 : String → String) (operation : String)
       (p1 p2 : List (String × PyVal)), p1.Perm p2 → (p1.map Prod.fst).Nodup →
       generate_cache_key md5hex16 operation p1 =
         generate_cache_key md5hex16 operation p2)
    ∧ (∀ (md5hex16 : String → String) (q : String)
       (f1 f2 : List (String × PyVal)) (limit : Int),
       f1.Perm f2 → (f1.map Prod.fst).Nodup →
       generate_cache_key md5hex16 "search" (searchParams q (some f1) limit) =
         generate_cache_key md5hex16 "search" (searchParams q (some f2) limit))
    ∧ (∀ (md5hex16 : String → String) (q : String) (limit : Int),
       generate_cache_key md5hex16 "search" (searchParams q none limit) =
         generate_cache_key md5hex16 "search" (searchParams q (some []) limit)) := by
  refine ⟨?_, ?_, ?_⟩
  · intro md5 op p1 p2 hp hn
    simp only [generate_cache_key, cache_key_content]
    rw [dumps_pdict_perm hp hn]
  · intro md5 q f1 f2 limit hp hn
    simp only [generate_cache_key, cache_key_content]
    have hd := dumps_pdict_perm hp hn
    have hcongr : dumps (.pdict (.ofList (searchParams q (some f1) limit))) =
        dumps (.pdict (.ofList (searchParams q (some f2) limit))) := by
      apply dumps_pdict_congr
      simp [searchParams, orEmpty, hd]
    rw [hcongr]
  · intro md5 q limit
    rfl

/-- Witness for C4: the spec's example, `{x:1, y:2}` vs `{y:2, x:1}`. -/
theorem cache_key_canonicalization_witness :
    ([("x", PyVal.pint 1), ("y", PyVal.pint 2)].Perm
       [("y", PyVal.pint 2), ("x", PyVal.pint 1)]) ∧
    generate_cache_key (fun s => s) "search"
        (searchParams "a" (some [("x", PyVal.pint 1), ("y", PyVal.pint 2)]) 20) =
      generate_cache_key (fun s => s) "search"
        (searchParams "a" (some [("y", PyVal.pint 2), ("x", PyVal.pint 1)]) 20) :=
  ⟨List.Perm.swap ("y", PyVal.pint 2) ("x", PyVal.pint 1) [],
   cache_key_canonicalization.2.1 (fun s => s) "a" _ _ 20
     (List.Perm.swap ("y", PyVal.pint 2) ("x", PyVal.pint 1) [])
     (by decide)⟩

/-- C5: a `set(k, v, ttl)` with positive TTL followed by a `get(k)` at most
`ttl` later returns `v`, increments the hit counter by exactly 1 and leaves
`k` at the most-recently-used end of the recency order. -/
theorem set_then_get_hits {α T : Type} [LinearOrderedCommRing T]
    (s : LRUCache α T) (now1 now2 : T) (key : String) (value : α) (ttl : T)
    (hn : (s.cache.map Prod.fst).Nodup) (hcap : 1 ≤ s.max_size)
    (_ht : 0 < ttl) (hfresh : now2 - now1 ≤ ttl) :
    ((s.set now1 key value ttl).get now2 key).1 = some value ∧
    ((s.set now1 key value ttl).get now2 key).2.hits = s.hits + 1 ∧
    ((s.set now1 key value ttl).get now2 key).2.cache.getLast? =
      some (key, (⟨value, now1, ttl⟩ : CacheEntry α T)) := by
  have hl := lookupKey_set_self hn hcap now1 key value ttl
  have hexp : (⟨value, now1, ttl⟩ : CacheEntry α T).is_expired now2 = false := by
    simp only [CacheEntry.is_expired, decide_eq_false_iff_not]
    exact not_lt.mpr hfresh
  rw [LRUCache.get_hit hl hexp]
  refine ⟨rfl, ?_, ?_⟩
  · dsimp only
    rw [LRUCache.set_hits_eq]
  · dsimp only
    exact List.getLast?_concat _

/-- Witness for C5: set at time 0 with TTL 300, read at time 1. -/
theorem set_then_get_hits_witness :
    (((LRUCache.init (α := Int) (T := Int) 2).cache.map Prod.fst).Nodup ∧
     (1 : Int) ≤ (LRUCache.init (α := Int) (T := Int) 2).max_size ∧
     (0 : Int) < 300 ∧ (1 : Int) - 0 ≤ 300) ∧
    (((LRUCache.init (α := Int) (T := Int) 2).set 0 "k" 7 300).get 1 "k").1 =
      some 7 :=
  ⟨⟨by decide, by decide, by decide, by decide⟩,
   (set_then_get_hits (LRUCache.init 2) 0 1 "k" 7 300
      (by decide) (by decide) (by decide) (by decide)).1⟩

/-- C6 counterexample: an `LRUCache` with the invalid capacity
`max_size = 0` is constructible without any error — `__init__` performs no
validation — and the resulting instance immediately evicts everything it is
given. -/
theorem invalid_config_constructible :
    ((LRUCache.init (α := Unit) (T := Int) 0).max_size ≤ 0) ∧
    (((LRUCache.init (α := Unit) (T := Int) 0).set 0 "k" () 300).cache = []) ∧
    (((LRUCache.init (α := Unit) (T := Int) 0).set 0 "k" () 300).evictions = 1) := by
  decide

/-- C6 (amended): neither constructor validates anything.  `LRUCache.init`
accepts every `max_size`, including non-positive ones, and
`CacheService.__init__` always builds its four caches from the fixed
literals 500/200/300/100 with positive default TTLs, so the shipped pool
happens to be valid but no invalid configuration is ever rejected. -/
theorem constructors_perform_no_validation {α T : Type} [LinearOrderedCommRing T] :
    (∀ m : Int, (LRUCache.init (α := α) (T := T) m).max_size = m ∧
       (LRUCache.init (α := α) (T := T) m).cache = []) ∧
    ((CacheService.init (α := α) (T := T)).search_cache.max_size = 500 ∧
     (CacheService.init (α := α) (T := T)).embedding_cache.max_size = 200 ∧
     (CacheService.init (α := α) (T := T)).vector_cache.max_size = 300 ∧
     (CacheService.init (α := α) (T := T)).integrated_cache.max_size = 100) ∧
    (default_ttl.all (fun p => decide (0 < p.2)) = true) :=
  ⟨fun _ => ⟨rfl, rfl⟩, ⟨rfl, rfl, rfl, rfl⟩, rfl⟩

/-- C7 counterexample: a caller-supplied `ttl_seconds = 0` is NOT stored;
because the source computes `ttl_seconds or default`, the falsy override 0
silently falls back to the search default of 300. -/
theorem ttl_zero_override_ignored :
    (((CacheService.init (α := Int) (T := Int)).set_search_result (fun _ => "h")
        0 "q" none 20 42 (some 0)).search_cache.cache.map
        (fun p => p.2.ttl_seconds) = [300]) ∧
    (((CacheService.init (α := Int) (T := Int)).set_search_result (fun _ => "h")
        0 "q" none 20 42 (some 0)).search_cache.cache.map
        (fun p => p.2.ttl_seconds) ≠ [0]) := by
  decide

/-- C7 (amended): a category `set` accessor stores the caller-supplied TTL
whenever the caller supplies a non-zero one; with no override — or with the
falsy override 0 — the entry is stored with the category default (300 for
search, 3600 for embeddings). -/
theorem set_accessors_ttl_selection {α T : Type} [LinearOrderedCommRing T]
    (svc : CacheService α T) (md5hex16 : String → String) (now : T)
    (q text : String) (filters : Option (List (String × PyVal))) (limit : Int)
    (v : α) (hcs : 1 ≤ svc.search_cache.max_size)
    (hce : 1 ≤ svc.embedding_cache.max_size) :
    (∀ t : T, t ≠ 0 →
      (svc.set_search_result md5hex16 now q filters limit v
          (some t)).search_cache.cache.getLast? =
        some (generate_cache_key md5hex16 "search" (searchParams q filters limit),
              (⟨v, now, t⟩ : CacheEntry α T)))
    ∧ ((svc.set_search_result md5hex16 now q filters limit v
          none).search_cache.cache.getLast? =
        some (generate_cache_key md5hex16 "search" (searchParams q filters limit),
              (⟨v, now, ((300 : Int) : T)⟩ : CacheEntry α T)))
    ∧ ((svc.set_search_result md5hex16 now q filters limit v
          (some 0)).search_cache.cache.getLast? =
        some (generate_cache_key md5hex16 "search" (searchParams q filters limit),
              (⟨v, now, ((300 : Int) : T)⟩ : CacheEntry α T)))
    ∧ (∀ t : T, t ≠ 0 →
      (svc.set_embedding md5hex16 now text v (some t)).embedding_cache.cache.getLast? =
        some (generate_cache_key md5hex16 "embedding" (embeddingParams text),
              (⟨v, now, t⟩ : CacheEntry α T)))
    ∧ ((svc.set_embedding md5hex16 now text v none).embedding_cache.cache.getLast? =
        some (generate_cache_key md5hex16 "embedding" (embeddingParams text),
              (⟨v, now, ((3600 : Int) : T)⟩ : CacheEntry α T))) := by
  refine ⟨?_, ?_, ?_, ?_, ?_⟩
  · intro t ht
    simp only [CacheService.set_search_result, pyOr, if_neg ht]
    exact LRUCache.set_cache_getLast hcs now _ v t
  · simp only [CacheService.set_search_result, pyOr]
    exact LRUCache.set_cache_getLast hcs now _ v _
  · simp only [CacheService.set_search_result, pyOr, if_pos rfl]
    exact LRUCache.set_cache_getLast hcs now _ v _
  · intro t ht
    simp only [CacheService.set_embedding, pyOr, if_neg ht]
    exact LRUCache.set_cache_getLast hce now _ v t
  · simp only [CacheService.set_embedding, pyOr]
    exact LRUCache.set_cache_getLast hce now _ v _

/-- Witness for C7 (amended): a non-zero override of 7 seconds is stored. -/
theorem set_accessors_ttl_selection_witness :
    ((1 : Int) ≤ (CacheService.init (α := Int) (T := Int)).search_cache.max_size ∧
     (1 : Int) ≤ (CacheService.init (α := Int) (T := Int)).embedding_cache.max_size ∧
     (7 : Int) ≠ 0) ∧
    ((CacheService.init (α := Int) (T := Int)).set_search_result (fun _ => "h")
        0 "q" none 20 42 (some 7)).search_cache.cache.getLast? =
      some (generate_cache_key (fun _ => "h") "search" (searchParams "q" none 20),
            (⟨42, 0, 7⟩ : CacheEntry Int Int)) :=
  ⟨⟨by decide, by decide, by decide⟩,
   (set_accessors_ttl_selection (CacheService.init) (fun _ => "h") 0 "q" ""
      none 20 42 (by decide) (by decide)).1 7 (by decide)⟩

/-- C8: `cleanup_expired` removes exactly the entries expired at sweep time
(preserving the order of the survivors), returns the number removed and
leaves the hit and miss counters untouched; a pool-wide
`cleanup_expired_async` with no expired entry in any category returns the
all-zero count map and leaves both the pool state and `get_stats`
unchanged. -/
theorem sweep_removes_exactly_expired {α T : Type} [LinearOrderedCommRing T] :
    (∀ (s : LRUCache α T) (now : T), (s.cache.map Prod.fst).Nodup →
      (s.cleanup_expired now).1 =
        (s.cache.filter (fun p => p.2.is_expired now)).length ∧
      (s.cleanup_expired now).2.cache =
        s.cache.filter (fun p => !(p.2.is_expired now)) ∧
      (s.cleanup_expired now).2.hits = s.hits ∧
      (s.cleanup_expired now).2.misses = s.misses)
    ∧ (∀ (svc : CacheService α T) (now : T),
      (∀ p ∈ svc.search_cache.cache, p.2.is_expired now = false) →
      (∀ p ∈ svc.embedding_cache.cache, p.2.is_expired now = false) →
      (∀ p ∈ svc.vector_cache.cache, p.2.is_expired now = false) →
      (∀ p ∈ svc.integrated_cache.cache, p.2.is_expired now = false) →
      svc.cleanup_expired_async now =
        ({ search := 0, embedding := 0, vector := 0, integrated := 0 }, svc) ∧
      ((svc.cleanup_expired_async now).2).get_stats = svc.get_stats) := by
  constructor
  · intro s now hn
    exact ⟨cleanup_expired_count s now, cleanup_expired_cache now hn, rfl, rfl⟩
  · intro svc now h1 h2 h3 h4
    have hmain := cleanup_expired_async_of_none_expired h1 h2 h3 h4
    exact ⟨hmain, by rw [hmain]⟩

/-- Witness for C8: sweeping a cache holding one expired and one live entry
counts exactly the expired one; sweeping a fresh pool does nothing. -/
theorem sweep_removes_exactly_expired_witness :
    (((runOps (LRUCache.init (α := Int) (T := Int) 5)
        [.set 0 "a" 7 5, .set 0 "b" 8 300]).cache.map Prod.fst).Nodup ∧
     (∀ p ∈ (CacheService.init (α := Int) (T := Int)).search_cache.cache,
        p.2.is_expired 6 = false)) ∧
    ((runOps (LRUCache.init (α := Int) (T := Int) 5)
        [.set 0 "a" 7 5, .set 0 "b" 8 300]).cleanup_expired 6).1 =
      ((runOps (LRUCache.init (α := Int) (T := Int) 5)
        [.set 0 "a" 7 5, .set 0 "b" 8 300]).cache.filter
        (fun p => p.2.is_expired 6)).length ∧
    ((CacheService.init (α := Int) (T := Int)).cleanup_expired_async 6).1 =
      { search := 0, embedding := 0, vector := 0, integrated := 0 } :=
  ⟨⟨by decide, by decide⟩,
   (sweep_removes_exactly_expired.1 _ 6 (by decide)).1,
   by rw [(sweep_removes_exactly_expired.2 (CacheService.init) 6
      (by decide) (by decide) (by decide) (by decide)).1]⟩

/-- C9: removing an expired entry through `cleanup_expired` never touches
the eviction counter, whereas discovering the same expired entry through
`get` increments it by 1 (and a fresh hit, an absent-key miss and a `delete`
leave it unchanged); the counter therefore conflates capacity evictions with
expired-on-read removals, and its value for one workload depends on whether
expiry is discovered by a read or by a sweep. -/
theorem evictions_sweep_vs_read {α T : Type} [LinearOrderedCommRing T]
    (s : LRUCache α T) (now : T) :
    ((s.cleanup_expired now).2.evictions = s.evictions)
    ∧ (∀ (key : String) (e : CacheEntry α T), lookupKey key s.cache = some e →
        e.is_expired now = true → (s.get now key).2.evictions = s.evictions + 1)
    ∧ (∀ (key : String) (e : CacheEntry α T), lookupKey key s.cache = some e →
        e.is_expired now = false → (s.get now key).2.evictions = s.evictions)
    ∧ (∀ key : String, lookupKey key s.cache = none →
        (s.get now key).2.evictions = s.evictions)
    ∧ (∀ key : String, (s.delete key).2.evictions = s.evictions) := by
  refine ⟨rfl, ?_, ?_, ?_, ?_⟩
  · intro key e hl he
    rw [LRUCache.get_expired hl he]
  · intro key e hl he
    rw [LRUCache.get_hit hl he]
  · intro key hl
    rw [LRUCache.get_none hl]
  · intro key
    simp only [LRUCache.delete]
    split <;> rfl

/-- Witness for C9: the same expired entry leaves evictions unchanged under
a sweep but increments it under a read. -/
theorem evictions_sweep_vs_read_witness :
    (lookupKey "k" (runOps (LRUCache.init (α := Int) (T := Int) 10)
        [.set 0 "k" 42 5]).cache = some ⟨42, 0, 5⟩ ∧
     (⟨42, 0, 5⟩ : CacheEntry Int Int).is_expired 6 = true) ∧
    ((runOps (LRUCache.init (α := Int) (T := Int) 10)
        [.set 0 "k" 42 5]).cleanup_expired 6).2.evictions =
      (runOps (LRUCache.init (α := Int) (T := Int) 10)
        [.set 0 "k" 42 5]).evictions ∧
    ((runOps (LRUCache.init (α := Int) (T := Int) 10)
        [.set 0 "k" 42 5]).get 6 "k").2.evictions =
      (runOps (LRUCache.init (α := Int) (T := Int) 10)
        [.set 0 "k" 42 5]).evictions + 1 :=
  ⟨⟨by decide, by decide⟩,
   (evictions_sweep_vs_read _ 6).1,
   (evictions_sweep_vs_read _ 6).2.1 "k" ⟨42, 0, 5⟩ (by decide) (by decide)⟩
